import Mathlib

/-!
Verification of the comment-harvesting core of `main.py`
(tj-comments-analyzer): a shallow embedding of `get_user_comments`,
`process_user`, `merge_comments` and the quota predicate of
`parse_tj_site`, together with theorems about them.

Modelling conventions:
* Python `datetime` values are modelled as integers (seconds); the
  external library call `datetime.fromisoformat` is modelled by its
  outcome, carried in the raw record (`none` = `ValueError`, `some t` =
  a parsed timestamp `t`).
* A raw JSON record object is modelled by a structure of `Option`
  fields; an absent key is `none` (Python: `KeyError` on `[]` access,
  default on `.get`).
* A Python dict of comment lists is modelled as an insertion-ordered
  association list `List (String × List Comment)`.
* Network traffic is modelled by a finite script of fetch outcomes, one
  per `session.get` the loop issues: `err` is a `requests.RequestException`
  (network failure, or `raise_for_status` on a non-2xx response).  The
  scan is deterministic given the script.  `scanPages` also counts the
  requests it issues, so that "no further page is requested" is statable.
-/

/-- The `rating` sub-object of a raw record (`comment['rating']`). -/
structure Rating where
  likes : Option Int
  dislikes : Option Int
  user_vote : Option Int
deriving DecidableEq

/-- A raw record object from the `data` array of a page response.
`date_added` is doubly optional: the outer layer is key presence, the
inner layer is the outcome of `datetime.fromisoformat` on the string
(`none` = unparseable, `ValueError`). -/
structure RawComment where
  id : Option Int
  rating : Option Rating
  status : Option String
  ban : Option Bool
  date_added : Option (Option Int)
  article_path : Option String
deriving DecidableEq

/-- The `Comment` dataclass of `main.py`.  `ban` is an `Option Bool`
because the code fills it with `comment.get('ban')`, which is `None`
when the key is absent. -/
structure Comment where
  id : Int
  likes : Int
  dislikes : Int
  user_vote : Int
  status : String
  ban : Option Bool
  date_added : Int
  url : String
deriving DecidableEq

/-- The JSON body of a 2xx page response (`data.get('count', 0)`,
`data.get('data')`). -/
structure PageJson where
  count : Option Int
  data : Option (List RawComment)
deriving DecidableEq

/-- Outcome of one `session.get` in the pagination loop. -/
inductive FetchResult where
  | ok (page : PageJson)
  | err
deriving DecidableEq

/-- The comments dict: a Python dict `str -> list[Comment]`, kept in
insertion order. -/
abbrev Buckets := List (String × List Comment)

/-- `d[k]` for the comments dict.  Every dict the program builds carries
all three bucket keys, so the `getD []` default is never exercised on a
key the code reads (Python would raise `KeyError` otherwise). -/
def dget (d : Buckets) (k : String) : List Comment :=
  (d.lookup k).getD []

/-- `d[k].append(c)`: update the entry of key `k` in place. -/
def appendTo (d : Buckets) (k : String) (c : Comment) : Buckets :=
  d.map fun p => if p.1 = k then (p.1, p.2 ++ [c]) else p

/-- The initial dict literal of `get_user_comments` (lines 29-33). -/
def emptyComments : Buckets :=
  [("only_likes", []), ("only_dislikes", []), ("both", [])]

/-- `one_year_ago = datetime.now(timezone.utc) - timedelta(days=365)`
(line 40), with timestamps in seconds. -/
def oneYearAgo (now : Int) : Int :=
  now - 365 * 86400

/-- `rating = comment.get('rating', {})` (line 63). -/
def effRating (r : RawComment) : Rating :=
  r.rating.getD ⟨none, none, none⟩

/-- `likes = rating.get('likes', 0)` (line 64). -/
def effLikes (r : RawComment) : Int :=
  (effRating r).likes.getD 0

/-- `dislikes = rating.get('dislikes', 0)` (line 65). -/
def effDislikes (r : RawComment) : Int :=
  (effRating r).dislikes.getD 0

/-- The comment URL f-string of line 88. -/
def mkUrl (path : String) (i : Int) : String :=
  "https://t-j.ru/" ++ path ++ "/#c" ++ toString i

/-- The bucket a pair `(likes, dislikes)` is appended under: the
if/elif chain of lines 92-97.  `none` means no branch fires and the
record is dropped. -/
def classify (likes dislikes : Int) : Option String :=
  if 0 < likes ∧ 0 < dislikes then some "both"
  else if 0 < likes then some "only_likes"
  else if 0 < dislikes then some "only_dislikes"
  else none

/-- What the loop body of lines 62-97 does with one raw record. -/
inductive RecStep where
  | skip
  | stop
  | keep (k : String) (c : Comment)
  | exn
deriving DecidableEq

/-- One iteration of `for comment in data['data']` (lines 62-97):
* engagement floor `likes + dislikes < 5` → `continue` (`skip`);
* `date_added` missing (`KeyError`) or unparseable (`ValueError`) is
  caught by the inner `except (ValueError, KeyError)` → `continue`;
* a parsed timestamp below the cutoff → `break` (`stop`);
* otherwise the `Comment` is constructed — a missing `id`, `status` or
  `article_path` raises `KeyError` OUTSIDE the inner try, which only
  the outer `except Exception` catches (`exn`);
* the constructed comment is appended under its `classify` bucket. -/
def recordStep (cutoff : Int) (r : RawComment) : RecStep :=
  let likes := effLikes r
  let dislikes := effDislikes r
  if likes + dislikes < 5 then .skip
  else
    match r.date_added with
    | none => .skip
    | some none => .skip
    | some (some t) =>
      if t < cutoff then .stop
      else
        match r.id, r.status, r.article_path with
        | some i, some s, some path =>
          let c : Comment :=
            ⟨i, likes, dislikes, (effRating r).user_vote.getD 0, s, r.ban, t, mkUrl path i⟩
          match classify likes dislikes with
          | some k => .keep k c
          | none => .skip
        | _, _, _ => .exn

/-- Outcome of running the `for` loop over one page's records:
`normal` = the loop finished or was left via `break`, control continues
at line 99; `exn` = an exception escaped the loop body, control jumps to
the outer `except Exception` handler. -/
inductive PageRes where
  | normal (acc : Buckets)
  | exn (acc : Buckets)
deriving DecidableEq

/-- The `for comment in data['data']` loop (lines 62-97) over the
records of one page. -/
def processData (cutoff : Int) (acc : Buckets) : List RawComment → PageRes
  | [] => .normal acc
  | r :: rs =>
    match recordStep cutoff r with
    | .skip => processData cutoff acc rs
    | .stop => .normal acc
    | .keep k c => processData cutoff (appendTo acc k c) rs
    | .exn => .exn acc

/-- The `while True` pagination loop of `get_user_comments`
(lines 42-114), driven by the script of fetch outcomes; returns the
comments dict and the number of requests issued.
* a `RequestException` (network error or non-2xx via
  `raise_for_status`) → `except requests.RequestException` → `break`;
* `not data.get('data')` (key absent, or empty list) → `break`;
* an exception escaping the record loop → `except Exception` → `break`;
* a page shorter than `limit` → `break`;
* otherwise `offset += limit`, sleep, and loop (the progress print of
  lines 99-101 and the `count` capture are I/O only and not modelled).
An exhausted script ends the run with the current dict. -/
def scanPages (cutoff : Int) (limit : Nat) (acc : Buckets) (reqs : Nat) :
    List FetchResult → Buckets × Nat
  | [] => (acc, reqs)
  | f :: fs =>
    match f with
    | .err => (acc, reqs + 1)
    | .ok page =>
      match page.data with
      | none => (acc, reqs + 1)
      | some [] => (acc, reqs + 1)
      | some ds =>
        match processData cutoff acc ds with
        | .exn acc' => (acc', reqs + 1)
        | .normal acc' =>
          if ds.length < limit then (acc', reqs + 1)
          else scanPages cutoff limit acc' (reqs + 1) fs

/-- `get_user_comments` (lines 24-117): `limit = 100`, cutoff = now
minus 365 days, starting from the three-bucket dict literal. -/
def get_user_comments (now : Int) (fetches : List FetchResult) : Buckets :=
  (scanPages (oneYearAgo now) 100 emptyComments 0 fetches).1

/-- The number of page requests `get_user_comments` issues on a given
script. -/
def requestsIssued (now : Int) (fetches : List FetchResult) : Nat :=
  (scanPages (oneYearAgo now) 100 emptyComments 0 fetches).2

/-- `process_user` (lines 119-130): delegates to `get_user_comments`
inside a `try`; `raised` models an exception thrown inside the `try`
before the scan's dict is returned (`get_user_comments` itself absorbs
its own failures), in which case the handler returns the empty
three-bucket dict literal. -/
def process_user (now : Int) (fetches : List FetchResult) (raised : Bool) : Buckets :=
  if raised then [("only_likes", []), ("only_dislikes", []), ("both", [])]
  else get_user_comments now fetches

/-- `merge_comments` (lines 132-141). -/
def merge_comments (comments1 comments2 : Buckets) : Buckets :=
  [("only_likes", dget comments1 "only_likes" ++ dget comments2 "only_likes"),
   ("only_dislikes", dget comments1 "only_dislikes" ++ dget comments2 "only_dislikes"),
   ("both", dget comments1 "both" ++ dget comments2 "both")]

/-- The stopping condition of `parse_tj_site` (lines 188-190), with the
literal `2000` generalised to a target parameter. -/
def quotaSatisfied (target : Nat) (d : Buckets) : Bool :=
  decide (target ≤ (dget d "only_likes").length) &&
  decide (target ≤ (dget d "only_dislikes").length) &&
  decide (target ≤ (dget d "both").length)

/-- The soundness invariant of the comments dict: every admitted comment
passes the engagement floor, is at or after the cutoff, and sits under
the bucket key its `(likes, dislikes)` pair classifies to. -/
def BucketInv (cutoff : Int) (d : Buckets) : Prop :=
  ∀ k c, c ∈ dget d k → 5 ≤ c.likes + c.dislikes ∧ cutoff ≤ c.date_added ∧
    classify c.likes c.dislikes = some k

/-- The dict the program continues with after a page's record loop, in
both the normal and the exception outcome. -/
def pageAcc : PageRes → Buckets
  | .normal a => a
  | .exn a => a

/-- The three bucket keys of the comments dict. -/
def bucketKeys : List String := ["only_likes", "only_dislikes", "both"]

/-- An association tree of partial results: one call shape of nested
`merge_comments` invocations over per-account partials. -/
inductive MergeTree where
  | leaf (b : Buckets)
  | node (l r : MergeTree)

/-- Fold `merge_comments` over an association tree. -/
def mergeTree : MergeTree → Buckets
  | .leaf b => b
  | .node l r => merge_comments (mergeTree l) (mergeTree r)

/-- The partial results at the leaves, left to right. -/
def MergeTree.leaves : MergeTree → List Buckets
  | .leaf b => [b]
  | .node l r => l.leaves ++ r.leaves

/-- Sample records: `exOldRec` passes the engagement floor but parses to
a timestamp below every cutoff used here; `exGoodRec` is a fully
well-formed record (no `ban` key) that is kept as `exGoodComment`;
`exNoStatusRec` passes floor and recency but lacks the `status` key. -/
def exOldRec : RawComment :=
  ⟨none, some ⟨some 6, some 0, none⟩, none, none, some (some (-40000000)), none⟩
def exGoodRec : RawComment :=
  ⟨some 42, some ⟨some 7, some 0, some 1⟩, some "visible", none, some (some 0), some "article"⟩
def exGoodComment : Comment :=
  ⟨42, 7, 0, 1, "visible", none, 0, "https://t-j.ru/article/#c42"⟩
def exNoStatusRec : RawComment :=
  ⟨some 1, some ⟨some 5, some 2, none⟩, none, none, some (some 0), some "p"⟩

/-- One short page holding only the well-formed record. -/
def c2Script : List FetchResult := [FetchResult.ok ⟨some 1, some [exGoodRec]⟩]

/-- Sample aggregate dicts with comments in some buckets. -/
def exA : Buckets :=
  appendTo (appendTo emptyComments "both" exGoodComment) "only_dislikes" exGoodComment
def exB : Buckets := appendTo emptyComments "only_likes" exGoodComment

/-- A full page (100 records) whose first record is below the cutoff,
followed by a second page holding a fresh well-formed record. -/
def c1Script : List FetchResult :=
  [FetchResult.ok ⟨some 100, some (exOldRec :: List.replicate 99 exOldRec)⟩,
   FetchResult.ok ⟨some 100, some [exGoodRec]⟩]

/-- A short page: a record missing `status`, then a well-formed record. -/
def c5Script : List FetchResult := [FetchResult.ok ⟨some 2, some [exNoStatusRec, exGoodRec]⟩]

/-- A record passing the floor whose `date_added` key is absent. -/
def exNoDateRec : RawComment :=
  ⟨some 2, some ⟨some 3, some 4, none⟩, some "ok", none, none, some "q"⟩

/-- A short page: a below-cutoff record, then a qualifying record. -/
def c8Script : List FetchResult := [FetchResult.ok ⟨some 2, some [exOldRec, exGoodRec]⟩]

/-- Appending to a bucket never changes the dict's key sequence. -/
theorem keys_appendTo (d : Buckets) (k : String) (c : Comment) :
    (appendTo d k c).map Prod.fst = d.map Prod.fst := by
  induction d with
  | nil => rfl
  | cons p rest ih =>
    simp only [appendTo, List.map_cons] at ih ⊢
    split <;> simp_all

/-- Reading a bucket after an append: the appended comment lands at the
end of the entry of its key, and only there. -/
theorem dget_appendTo (d : Buckets) (k k' : String) (c : Comment) :
    dget (appendTo d k c) k' =
      if k' = k ∧ (d.lookup k').isSome then dget d k' ++ [c] else dget d k' := by
  induction d with
  | nil => simp [dget, appendTo]
  | cons p rest ih =>
    obtain ⟨k₀, v⟩ := p
    by_cases hk : k₀ = k
    · by_cases hk' : k' = k₀
      · have h1 : k' = k := hk'.trans hk
        simp [appendTo, dget, hk, hk', h1, List.lookup_cons_self]
      · have hb : (k' == k₀) = false := beq_false_of_ne hk'
        have h1 : ¬ k' = k := fun h => hk' (h.trans hk.symm)
        simp only [appendTo, List.map_cons, if_pos hk, dget, List.lookup_cons, hb] at ih ⊢
        simpa [dget, h1] using ih
    · by_cases hk' : k' = k₀
      · have h1 : ¬ k' = k := fun h => hk (hk'.symm.trans h)
        simp [appendTo, dget, hk, hk', h1, List.lookup_cons_self]
      · have hb : (k' == k₀) = false := beq_false_of_ne hk'
        simp only [appendTo, List.map_cons, if_neg hk, dget, List.lookup_cons, hb] at ih ⊢
        simpa [dget] using ih

/-- A member of a bucket after an append was already there, or is the
appended comment under the appended key. -/
theorem mem_dget_appendTo (d : Buckets) (k k' : String) (c c' : Comment)
    (h : c' ∈ dget (appendTo d k c) k') : c' ∈ dget d k' ∨ (k' = k ∧ c' = c) := by
  rw [dget_appendTo] at h
  split at h
  · rcases List.mem_append.mp h with h1 | h1
    · exact Or.inl h1
    · next hcond => exact Or.inr ⟨hcond.1, List.mem_singleton.mp h1⟩
  · exact Or.inl h

/-- A kept comment passed the engagement floor and the recency check,
and its bucket key is the classification of its pair. -/
theorem recordStep_keep (cutoff : Int) (r : RawComment) (k : String) (c : Comment)
    (h : recordStep cutoff r = RecStep.keep k c) :
    5 ≤ c.likes + c.dislikes ∧ cutoff ≤ c.date_added ∧
      classify c.likes c.dislikes = some k := by
  by_cases h5 : effLikes r + effDislikes r < 5
  · simp [recordStep, h5] at h
  · rcases hdate : r.date_added with _ | ⟨_ | t⟩
    · simp [recordStep, h5, hdate] at h
    · simp [recordStep, h5, hdate] at h
    · by_cases ht : t < cutoff
      · simp [recordStep, h5, hdate, ht] at h
      · rcases hid : r.id with _ | i <;>
          rcases hst : r.status with _ | s <;>
          rcases hpath : r.article_path with _ | path <;>
            simp [recordStep, h5, hdate, ht, hid, hst, hpath] at h
        rcases hcl : classify (effLikes r) (effDislikes r) with _ | k0 <;>
          simp [hcl] at h
        obtain ⟨hk, hc⟩ := h
        subst hk
        subst hc
        exact ⟨by dsimp only; omega, by dsimp only; omega, by dsimp only; exact hcl⟩

/-- Every bucket of the initial dict is empty. -/
theorem dget_empty (k : String) : dget emptyComments k = [] := by
  unfold dget emptyComments
  rcases h1 : (k == "only_likes") <;> rcases h2 : (k == "only_dislikes") <;>
    rcases h3 : (k == "both") <;> simp [List.lookup_cons, h1, h2, h3]

/-- The initial dict satisfies the soundness invariant. -/
theorem bucketInv_empty (cutoff : Int) : BucketInv cutoff emptyComments := by
  intro k c hc
  rw [dget_empty] at hc
  exact absurd hc (List.not_mem_nil c)

/-- Appending a sound comment under its classified key preserves the
invariant. -/
theorem bucketInv_appendTo {cutoff : Int} {d : Buckets} {k : String} {c : Comment}
    (hbi : BucketInv cutoff d)
    (hgood : 5 ≤ c.likes + c.dislikes ∧ cutoff ≤ c.date_added ∧
      classify c.likes c.dislikes = some k) :
    BucketInv cutoff (appendTo d k c) := by
  intro k' c' hc'
  rcases mem_dget_appendTo d k k' c c' hc' with h | ⟨hk, hc⟩
  · exact hbi k' c' h
  · subst hk; subst hc; exact hgood

/-- One page's record loop preserves the invariant, whether it ends
normally or by exception. -/
theorem bucketInv_processData (cutoff : Int) (ds : List RawComment) :
    ∀ d, BucketInv cutoff d → BucketInv cutoff (pageAcc (processData cutoff d ds)) := by
  induction ds with
  | nil => intro d h; exact h
  | cons r rs ih =>
    intro d h
    cases hstep : recordStep cutoff r with
    | skip =>
      simp only [processData, hstep]
      exact ih d h
    | stop =>
      simp only [processData, hstep]
      exact h
    | keep k c =>
      simp only [processData, hstep]
      exact ih (appendTo d k c) (bucketInv_appendTo h (recordStep_keep cutoff r k c hstep))
    | exn =>
      simp only [processData, hstep]
      exact h

/-- The whole pagination loop preserves the invariant. -/
theorem bucketInv_scanPages (cutoff : Int) (limit : Nat) (fs : List FetchResult) :
    ∀ acc reqs, BucketInv cutoff acc → BucketInv cutoff (scanPages cutoff limit acc reqs fs).1 := by
  induction fs with
  | nil => intro acc reqs h; exact h
  | cons f fs ih =>
    intro acc reqs h
    cases f with
    | err => exact h
    | ok page =>
      rcases hd : page.data with _ | ⟨_ | ⟨r, rs⟩⟩ <;> simp only [scanPages, hd]
      · exact h
      · exact h
      · rcases hpd : processData cutoff acc (r :: rs) with acc' | acc' <;>
          simp only [hpd]
        · have hbi2 : BucketInv cutoff acc' := by
            have hgen := bucketInv_processData cutoff (r :: rs) acc h
            rw [hpd] at hgen
            exact hgen
          split
          · exact hbi2
          · exact ih acc' (reqs + 1) hbi2
        · have hgen := bucketInv_processData cutoff (r :: rs) acc h
          rw [hpd] at hgen
          exact hgen

/-- One page's record loop never changes the dict's key sequence. -/
theorem keys_processData (cutoff : Int) (ds : List RawComment) :
    ∀ d, (pageAcc (processData cutoff d ds)).map Prod.fst = d.map Prod.fst := by
  induction ds with
  | nil => intro d; rfl
  | cons r rs ih =>
    intro d
    cases hstep : recordStep cutoff r with
    | skip => simp only [processData, hstep]; exact ih d
    | stop => simp only [processData, hstep]; rfl
    | keep k c =>
      simp only [processData, hstep]
      rw [ih (appendTo d k c), keys_appendTo]
    | exn => simp only [processData, hstep]; rfl

/-- The pagination loop never changes the dict's key sequence. -/
theorem keys_scanPages (cutoff : Int) (limit : Nat) (fs : List FetchResult) :
    ∀ acc reqs, ((scanPages cutoff limit acc reqs fs).1).map Prod.fst = acc.map Prod.fst := by
  induction fs with
  | nil => intro acc reqs; rfl
  | cons f fs ih =>
    intro acc reqs
    cases f with
    | err => rfl
    | ok page =>
      rcases hd : page.data with _ | ⟨_ | ⟨r, rs⟩⟩ <;> simp only [scanPages, hd]
      rcases hpd : processData cutoff acc (r :: rs) with acc' | acc' <;>
        simp only [hpd]
      case normal =>
        have hkeys : acc'.map Prod.fst = acc.map Prod.fst := by
          have hgen := keys_processData cutoff (r :: rs) acc
          rw [hpd] at hgen
          exact hgen
        split
        · exact hkeys
        · rw [ih acc' (reqs + 1), hkeys]
      case exn =>
        have hgen := keys_processData cutoff (r :: rs) acc
        rw [hpd] at hgen
        exact hgen

/-- Nothing after the first transport error in the script is ever
consulted. -/
theorem scanPages_err_suffix (cutoff : Int) (limit : Nat) (pre : List FetchResult) :
    ∀ acc reqs rest rest',
      scanPages cutoff limit acc reqs (pre ++ FetchResult.err :: rest)
        = scanPages cutoff limit acc reqs (pre ++ FetchResult.err :: rest') := by
  induction pre with
  | nil => intro acc reqs rest rest'; rfl
  | cons f fs ih =>
    intro acc reqs rest rest'
    cases f with
    | err => rfl
    | ok page =>
      rcases hd : page.data with _ | ⟨_ | ⟨r, rs⟩⟩ <;>
        simp only [List.cons_append, scanPages, hd]
      rcases hpd : processData cutoff acc (r :: rs) with acc' | acc' <;>
        simp only [hpd]
      split
      · rfl
      · exact ih acc' (reqs + 1) rest rest'

/-- `merge_comments` concatenates the `only_likes` buckets. -/
theorem dget_merge_only_likes (a b : Buckets) :
    dget (merge_comments a b) "only_likes" = dget a "only_likes" ++ dget b "only_likes" := rfl

/-- `merge_comments` concatenates the `only_dislikes` buckets. -/
theorem dget_merge_only_dislikes (a b : Buckets) :
    dget (merge_comments a b) "only_dislikes" = dget a "only_dislikes" ++ dget b "only_dislikes" := rfl

/-- `merge_comments` concatenates the `both` buckets. -/
theorem dget_merge_both (a b : Buckets) :
    dget (merge_comments a b) "both" = dget a "both" ++ dget b "both" := rfl

/-- `merge_comments` concatenates the bucket of each of the three keys. -/
theorem dget_merge_key {k : String} (hk : k ∈ bucketKeys) (a b : Buckets) :
    dget (merge_comments a b) k = dget a k ++ dget b k := by
  simp only [bucketKeys, List.mem_cons, List.not_mem_nil, or_false] at hk
  rcases hk with rfl | rfl | rfl
  · exact dget_merge_only_likes a b
  · exact dget_merge_only_dislikes a b
  · exact dget_merge_both a b

/-- Any association of merges: a bucket's count is the sum of the leaf
counts. -/
theorem mergeTree_count {k : String} (hk : k ∈ bucketKeys) :
    ∀ t : MergeTree, (dget (mergeTree t) k).length
      = (t.leaves.map fun p => (dget p k).length).sum := by
  intro t
  induction t with
  | leaf b => simp [mergeTree, MergeTree.leaves]
  | node l r ihl ihr =>
    simp only [mergeTree, MergeTree.leaves, List.map_append, List.sum_append,
      dget_merge_key hk, List.length_append, ihl, ihr]

/-- Left fold of merges: a bucket's count is the initial count plus the
sum of the folded partials' counts. -/
theorem foldl_merge_count {k : String} (hk : k ∈ bucketKeys) (ps : List Buckets) :
    ∀ init : Buckets, (dget (ps.foldl merge_comments init) k).length
      = (dget init k).length + (ps.map fun p => (dget p k).length).sum := by
  induction ps with
  | nil => intro init; simp
  | cons p ps ih =>
    intro init
    simp only [List.foldl_cons, List.map_cons, List.sum_cons]
    rw [ih (merge_comments init p), dget_merge_key hk, List.length_append]
    omega

/-- A page on which no record triggers the cutoff `break` or an
uncaught exception runs its record loop to normal completion. -/
theorem processData_no_stop_exn (cutoff : Int) (ds : List RawComment)
    (hclean : ∀ x ∈ ds, recordStep cutoff x ≠ RecStep.stop ∧
      recordStep cutoff x ≠ RecStep.exn) :
    ∀ acc, ∃ acc', processData cutoff acc ds = PageRes.normal acc' := by
  induction ds with
  | nil => intro acc; exact ⟨acc, rfl⟩
  | cons r rs ih =>
    intro acc
    have hr := hclean r (List.mem_cons_self r rs)
    have htail : ∀ x ∈ rs, recordStep cutoff x ≠ RecStep.stop ∧
        recordStep cutoff x ≠ RecStep.exn :=
      fun x hx' => hclean x (List.mem_cons_of_mem r hx')
    cases hx : recordStep cutoff r with
    | skip => simpa [processData, hx] using ih htail acc
    | stop => exact absurd hx hr.1
    | keep k c => simpa [processData, hx] using ih htail (appendTo acc k c)
    | exn => exact absurd hx hr.2

/-- C1 is false as stated: on `c1Script` the first record of the full
first page is below the cutoff (`recordStep ... = stop`), yet the scan
does NOT terminate — a second page is requested (`requestsIssued = 2`)
and its record is kept.  The `break` of line 76 only leaves the inner
`for` loop; a full page then falls through line 103's short-page test
and the `while` loop continues. -/
theorem cutoff_terminates_scan_counterexample :
    recordStep (oneYearAgo 0) exOldRec = RecStep.stop ∧
    requestsIssued 0 c1Script = 2 ∧
    dget (get_user_comments 0 c1Script) "only_likes" = [exGoodComment] := by
  decide

/-- C1 amended: when a below-cutoff record is encountered, processing
of the current page stops immediately and every record at or after it
on that page is discarded; but the scan terminates only if that page
was short — if the page held exactly `limit` records, the next page is
still requested (the loop continues into `rest` with one more request
issued). -/
theorem cutoff_stops_page_not_scan (cutoff : Int) (limit reqs : Nat) (acc : Buckets)
    (pre post : List RawComment) (r : RawComment) (rest : List FetchResult)
    (cnt : Option Int) (hr : recordStep cutoff r = RecStep.stop) :
    processData cutoff acc (pre ++ r :: post) = processData cutoff acc pre ∧
    (∀ acc', (pre ++ r :: post).length = limit →
      processData cutoff acc (pre ++ r :: post) = PageRes.normal acc' →
      scanPages cutoff limit acc reqs
          (FetchResult.ok ⟨cnt, some (pre ++ r :: post)⟩ :: rest)
        = scanPages cutoff limit acc' (reqs + 1) rest) := by
  constructor
  · induction pre generalizing acc with
    | nil => simp only [List.nil_append, processData, hr]
    | cons x pre' ih =>
      cases hx : recordStep cutoff x with
      | skip => simp only [List.cons_append, processData, hx]; exact ih acc
      | stop => simp only [List.cons_append, processData, hx]
      | keep k c => simp only [List.cons_append, processData, hx]; exact ih (appendTo acc k c)
      | exn => simp only [List.cons_append, processData, hx]
  · intro acc' hlen hpd
    rcases hsplit : pre ++ r :: post with _ | ⟨a, as⟩
    · exact absurd hsplit (by simp)
    · rw [hsplit] at hpd hlen
      simp only [scanPages, hpd]
      rw [if_neg (by omega)]

/-- Witness for C1-amended on the concrete full page of `c1Script`. -/
theorem cutoff_stops_page_not_scan_witness :
    processData (oneYearAgo 0) emptyComments (exOldRec :: List.replicate 99 exOldRec)
      = processData (oneYearAgo 0) emptyComments [] ∧
    scanPages (oneYearAgo 0) 100 emptyComments 0 c1Script
      = scanPages (oneYearAgo 0) 100 emptyComments 1 [FetchResult.ok ⟨some 100, some [exGoodRec]⟩] := by
  have h := cutoff_stops_page_not_scan (oneYearAgo 0) 100 0 emptyComments []
    (List.replicate 99 exOldRec) exOldRec [FetchResult.ok ⟨some 100, some [exGoodRec]⟩]
    (some 100) (by decide)
  exact ⟨h.1, h.2 emptyComments (by decide) (by decide)⟩

/-- C2: every comment in any bucket of `get_user_comments` has
`likes + dislikes >= 5`, a parsed `date_added` at or after the cutoff
(now minus 365 days), and sits under exactly the bucket key that
`classify` assigns to its `(likes, dislikes)` pair; membership in a
second bucket forces the same key, so each admitted comment lies in
exactly one bucket. -/
theorem admitted_records_sound (now : Int) (fetches : List FetchResult) (k : String)
    (c : Comment) (h : c ∈ dget (get_user_comments now fetches) k) :
    5 ≤ c.likes + c.dislikes ∧ oneYearAgo now ≤ c.date_added ∧
      classify c.likes c.dislikes = some k ∧
      ∀ k', c ∈ dget (get_user_comments now fetches) k' → k' = k := by
  have hbi := bucketInv_scanPages (oneYearAgo now) 100 fetches emptyComments 0
    (bucketInv_empty (oneYearAgo now))
  obtain ⟨h1, h2, h3⟩ := hbi k c h
  refine ⟨h1, h2, h3, fun k' h' => ?_⟩
  obtain ⟨-, -, h3'⟩ := hbi k' c h'
  exact Option.some.inj (h3'.symm.trans h3)

/-- Witness for C2 at a concrete one-page script whose single record is
kept in `only_likes`. -/
theorem admitted_records_sound_witness :
    5 ≤ exGoodComment.likes + exGoodComment.dislikes ∧
    oneYearAgo 0 ≤ exGoodComment.date_added ∧
    classify exGoodComment.likes exGoodComment.dislikes = some "only_likes" := by
  obtain ⟨h1, h2, h3, -⟩ :=
    admitted_records_sound 0 c2Script "only_likes" exGoodComment (by decide)
  exact ⟨h1, h2, h3⟩

/-- C3: on non-negative pairs with `likes + dislikes >= 5`, `classify`
is total and assigns `both` iff both sides are positive, `only_likes`
iff only likes are, `only_dislikes` iff only dislikes are; the three
conditions are exhaustive, and the assigned bucket is unique because
`classify` is a function (the iffs make the cases mutually
exclusive). -/
theorem classify_total_exclusive (likes dislikes : Int) (hl : 0 ≤ likes) (hd : 0 ≤ dislikes)
    (h5 : 5 ≤ likes + dislikes) :
    (classify likes dislikes = some "both" ↔ 0 < likes ∧ 0 < dislikes) ∧
    (classify likes dislikes = some "only_likes" ↔ 0 < likes ∧ dislikes = 0) ∧
    (classify likes dislikes = some "only_dislikes" ↔ likes = 0 ∧ 0 < dislikes) ∧
    ((0 < likes ∧ 0 < dislikes) ∨ (0 < likes ∧ dislikes = 0) ∨ (likes = 0 ∧ 0 < dislikes)) ∧
    ∃ k, classify likes dislikes = some k := by
  unfold classify
  split_ifs with h1 h2 h3 <;>
    refine ⟨?_, ?_, ?_, ?_, ?_⟩ <;> simp_all <;> omega

/-- Witness for C3: the spec's three sample pairs `(5,0)`, `(0,7)` and
`(2,3)`. -/
theorem classify_total_exclusive_witness :
    classify 5 0 = some "only_likes" ∧ classify 0 7 = some "only_dislikes" ∧
    classify 2 3 = some "both" := by
  refine ⟨?_, ?_, ?_⟩
  · exact (classify_total_exclusive 5 0 (by decide) (by decide) (by decide)).2.1.mpr
      (by decide)
  · exact (classify_total_exclusive 0 7 (by decide) (by decide) (by decide)).2.2.1.mpr
      (by decide)
  · exact (classify_total_exclusive 2 3 (by decide) (by decide) (by decide)).1.mpr
      (by decide)

/-- C4: a transport failure (network error or non-2xx response, both
`FetchResult.err`) ends the scan: nothing after the first error in the
script is ever consulted, and at the error the dict accumulated so far
is returned.  No exception escapes the scanner boundary: in the
embedding `scanPages` is a total function into `Buckets × Nat`, exactly
because lines 109-114 absorb every exception into a `break`. -/
theorem transport_error_returns_partial (cutoff : Int) (limit : Nat) (acc : Buckets)
    (reqs : Nat) (pre rest rest' : List FetchResult) :
    scanPages cutoff limit acc reqs (pre ++ FetchResult.err :: rest)
      = scanPages cutoff limit acc reqs (pre ++ FetchResult.err :: rest') ∧
    scanPages cutoff limit acc reqs (FetchResult.err :: rest) = (acc, reqs + 1) := by
  exact ⟨scanPages_err_suffix cutoff limit pre acc reqs rest rest', rfl⟩

/-- C5 is false as stated: `exNoStatusRec` passes the engagement floor
and recency but lacks `status`; constructing the `Comment` raises
`KeyError` outside the inner `try`, the outer `except Exception`
breaks the `while` loop, and the well-formed `exGoodRec` right after it
on the page is lost (`get_user_comments` returns the empty dict instead
of keeping it). -/
theorem missing_field_aborts_scan_counterexample :
    recordStep (oneYearAgo 0) exNoStatusRec = RecStep.exn ∧
    recordStep (oneYearAgo 0) exGoodRec = RecStep.keep "only_likes" exGoodComment ∧
    get_user_comments 0 c5Script = emptyComments := by
  decide

/-- C5 amended: a record passing the engagement floor whose timestamp
is missing or unparseable is skipped alone and the scan continues with
the remaining records; but a record missing `id`, `status` or
`article_path` (with a fresh parsed timestamp) raises outside the inner
`try`, aborting the whole page and terminating the account's scan with
the partial dict. -/
theorem malformed_record_handling (cutoff : Int) (acc : Buckets) (r : RawComment)
    (rs : List RawComment) (limit reqs : Nat) (cnt : Option Int) (rest : List FetchResult)
    (h5 : ¬ effLikes r + effDislikes r < 5) :
    (r.date_added = none ∨ r.date_added = some none →
      recordStep cutoff r = RecStep.skip ∧
      processData cutoff acc (r :: rs) = processData cutoff acc rs) ∧
    (∀ t, r.date_added = some (some t) → ¬ t < cutoff →
      r.id = none ∨ r.status = none ∨ r.article_path = none →
      recordStep cutoff r = RecStep.exn ∧
      processData cutoff acc (r :: rs) = PageRes.exn acc ∧
      scanPages cutoff limit acc reqs (FetchResult.ok ⟨cnt, some (r :: rs)⟩ :: rest)
        = (acc, reqs + 1)) := by
  constructor
  · intro hdate
    have hskip : recordStep cutoff r = RecStep.skip := by
      rcases hdate with hdate | hdate <;> simp [recordStep, h5, hdate]
    exact ⟨hskip, by simp only [processData, hskip]⟩
  · intro t hdate ht hmiss
    have hexn : recordStep cutoff r = RecStep.exn := by
      rcases hi : r.id with _ | i <;> rcases hs : r.status with _ | s <;>
        rcases hp : r.article_path with _ | p <;>
        simp [recordStep, h5, hdate, ht, hi, hs, hp]
      rcases hmiss with h | h | h <;> simp_all
    refine ⟨hexn, by simp only [processData, hexn], ?_⟩
    simp only [scanPages, processData, hexn]

/-- Witness for C5-amended: a record with no `date_added` is skipped
and processing continues; a record with no `status` aborts. -/
theorem malformed_record_handling_witness :
    recordStep (oneYearAgo 0) exNoDateRec = RecStep.skip ∧
    processData (oneYearAgo 0) emptyComments [exNoDateRec, exGoodRec]
      = processData (oneYearAgo 0) emptyComments [exGoodRec] ∧
    recordStep (oneYearAgo 0) exNoStatusRec = RecStep.exn := by
  have h1 := malformed_record_handling (oneYearAgo 0) emptyComments exNoDateRec
    [exGoodRec] 100 0 (some 2) [] (by decide)
  have h2 := malformed_record_handling (oneYearAgo 0) emptyComments exNoStatusRec
    [] 100 0 (some 1) [] (by decide)
  obtain ⟨ha, hb⟩ := h1.1 (Or.inl rfl)
  exact ⟨ha, hb, (h2.2 0 rfl (by decide) (Or.inr (Or.inl rfl))).1⟩

/-- C6: `merge_comments` adds per-bucket counts; merging a collection
of partials in any association (`MergeTree`) and any permutation of the
inputs (of tree leaves, or of a fold's list) yields the same final
per-bucket counts. -/
theorem merge_counts_additive :
    (∀ comments1 comments2 : Buckets, ∀ k ∈ bucketKeys,
      (dget (merge_comments comments1 comments2) k).length
        = (dget comments1 k).length + (dget comments2 k).length) ∧
    (∀ t : MergeTree, ∀ k ∈ bucketKeys,
      (dget (mergeTree t) k).length
        = (t.leaves.map fun p => (dget p k).length).sum) ∧
    (∀ t t' : MergeTree, t.leaves.Perm t'.leaves → ∀ k ∈ bucketKeys,
      (dget (mergeTree t) k).length = (dget (mergeTree t') k).length) ∧
    (∀ init : Buckets, ∀ ps qs : List Buckets, ps.Perm qs → ∀ k ∈ bucketKeys,
      (dget (ps.foldl merge_comments init) k).length
        = (dget (qs.foldl merge_comments init) k).length) := by
  refine ⟨?_, ?_, ?_, ?_⟩
  · intro c1 c2 k hk
    rw [dget_merge_key hk, List.length_append]
  · intro t k hk
    exact mergeTree_count hk t
  · intro t t' hperm k hk
    rw [mergeTree_count hk, mergeTree_count hk]
    exact (hperm.map fun p => (dget p k).length).sum_eq
  · intro init ps qs hperm k hk
    rw [foldl_merge_count hk ps init, foldl_merge_count hk qs init]
    rw [(hperm.map fun p => (dget p k).length).sum_eq]

/-- Witness for C6 at concrete dicts: a pairwise count, a transposed
tree, and a transposed fold. -/
theorem merge_counts_additive_witness :
    (dget (merge_comments exA exB) "both").length
      = (dget exA "both").length + (dget exB "both").length ∧
    (dget (mergeTree (MergeTree.node (MergeTree.leaf exA) (MergeTree.leaf exB))) "both").length
      = (dget (mergeTree (MergeTree.node (MergeTree.leaf exB) (MergeTree.leaf exA))) "both").length ∧
    (dget ([exA, exB].foldl merge_comments emptyComments) "only_likes").length
      = (dget ([exB, exA].foldl merge_comments emptyComments) "only_likes").length := by
  refine ⟨?_, ?_, ?_⟩
  · exact merge_counts_additive.1 exA exB "both" (by decide)
  · exact merge_counts_additive.2.2.1
      (MergeTree.node (MergeTree.leaf exA) (MergeTree.leaf exB))
      (MergeTree.node (MergeTree.leaf exB) (MergeTree.leaf exA))
      (by decide) "both" (by decide)
  · exact merge_counts_additive.2.2.2 emptyComments [exA, exB] [exB, exA]
      (by decide) "only_likes" (by decide)

/-- C7: the quota predicate (each bucket's length at least the target)
is monotone under `merge_comments`: merging only appends records, so a
satisfied quota stays satisfied. -/
theorem quota_monotone_under_merge (target : Nat) (d p : Buckets)
    (h : quotaSatisfied target d = true) :
    quotaSatisfied target (merge_comments d p) = true := by
  unfold quotaSatisfied at h ⊢
  rw [dget_merge_only_likes, dget_merge_only_dislikes, dget_merge_both]
  simp only [List.length_append, Bool.and_eq_true, decide_eq_true_eq] at h ⊢
  omega

/-- Witness for C7 at target 1 and concrete dicts. -/
theorem quota_monotone_under_merge_witness :
    quotaSatisfied 1 (merge_comments (merge_comments exA exB) exA) = true := by
  have h0 : quotaSatisfied 1 (merge_comments exA exB) = true := by decide
  exact quota_monotone_under_merge 1 (merge_comments exA exB) exA h0

/-- C8 is false as stated: on the short page of `c8Script` the
qualifying `exGoodRec` (kept by `recordStep`) is discarded, because the
below-cutoff `exOldRec` before it breaks the record loop first; the
scan does stop with no further request, but not every qualifying record
was kept. -/
theorem short_page_keeps_all_counterexample :
    recordStep (oneYearAgo 0) exGoodRec = RecStep.keep "only_likes" exGoodComment ∧
    get_user_comments 0 c8Script = emptyComments ∧
    requestsIssued 0 c8Script = 1 := by
  decide

/-- C8 amended: a page with zero records (or a missing `data` field)
stops the scan with no further request; a page shorter than `limit` on
which no record triggers the cutoff `break` or an uncaught exception
has all its records processed, the kept ones retained, and the scan
stops with no further request. -/
theorem short_page_stops_scan (cutoff : Int) (limit reqs : Nat) (acc : Buckets)
    (cnt : Option Int) (ds : List RawComment) (rest : List FetchResult)
    (hclean : ∀ x ∈ ds, recordStep cutoff x ≠ RecStep.stop ∧
      recordStep cutoff x ≠ RecStep.exn)
    (hshort : ds.length < limit) :
    scanPages cutoff limit acc reqs (FetchResult.ok ⟨cnt, none⟩ :: rest) = (acc, reqs + 1) ∧
    scanPages cutoff limit acc reqs (FetchResult.ok ⟨cnt, some []⟩ :: rest) = (acc, reqs + 1) ∧
    ∃ acc', processData cutoff acc ds = PageRes.normal acc' ∧
      scanPages cutoff limit acc reqs (FetchResult.ok ⟨cnt, some ds⟩ :: rest)
        = (acc', reqs + 1) := by
  refine ⟨rfl, rfl, ?_⟩
  obtain ⟨acc', hpd⟩ := processData_no_stop_exn cutoff ds hclean acc
  refine ⟨acc', hpd, ?_⟩
  rcases ds with _ | ⟨a, as⟩
  · cases hpd; rfl
  · simp only [scanPages, hpd]
    rw [if_pos hshort]

/-- Witness for C8-amended on a concrete one-record short page. -/
theorem short_page_stops_scan_witness :
    scanPages (oneYearAgo 0) 100 emptyComments 0 [FetchResult.ok ⟨some 1, some [exGoodRec]⟩]
      = (appendTo emptyComments "only_likes" exGoodComment, 1) := by
  obtain ⟨acc', hpd, hscan⟩ := (short_page_stops_scan (oneYearAgo 0) 100 0 emptyComments
    (some 1) [exGoodRec] [] (by decide) (by decide)).2.2
  have h2 : processData (oneYearAgo 0) emptyComments [exGoodRec]
      = PageRes.normal (appendTo emptyComments "only_likes" exGoodComment) := by decide
  have hacc : appendTo emptyComments "only_likes" exGoodComment = acc' :=
    PageRes.normal.inj (h2.symm.trans hpd)
  rw [← hacc] at hscan
  exact hscan

/-- C9 is false as stated: for `exGoodRec`, whose `ban` key is absent,
the constructed comment's `ban` is `none` — the Python `None` that
`comment.get('ban')` returns — not a falsy non-None value such as
`False`. -/
theorem absent_ban_yields_none_counterexample :
    exGoodRec.ban = none ∧
    recordStep (oneYearAgo 0) exGoodRec = RecStep.keep "only_likes" exGoodComment ∧
    exGoodComment.ban = none ∧
    exGoodComment.ban ≠ some false := by
  decide

/-- C9 amended: an absent `rating` (or absent `likes`, `dislikes`,
`user_vote` inside it) defaults to 0 in the values the code uses and in
the constructed comment; but an absent `ban` key yields `None`
(modelled `none`), not 0/empty. -/
theorem absent_field_defaults (cutoff t dv i : Int) (s p : String)
    (h5 : 5 ≤ dv) (ht : ¬ t < cutoff) :
    (∀ r : RawComment, r.rating = none →
      effLikes r = 0 ∧ effDislikes r = 0 ∧ recordStep cutoff r = RecStep.skip) ∧
    recordStep cutoff ⟨some i, some ⟨none, some dv, none⟩, some s, none, some (some t), some p⟩
      = RecStep.keep "only_dislikes" ⟨i, 0, dv, 0, s, none, t, mkUrl p i⟩ := by
  constructor
  · intro r hr
    refine ⟨?_, ?_, ?_⟩ <;> simp [effLikes, effDislikes, effRating, hr, recordStep]
  · have hd5 : ¬ ((0 : Int) + dv < 5) := by omega
    have hdv : (0 : Int) < dv := by omega
    simp [recordStep, effLikes, effDislikes, effRating, classify, ht, hd5, hdv]
    omega

/-- Witness for C9-amended at concrete field values. -/
theorem absent_field_defaults_witness :
    recordStep (oneYearAgo 0)
        ⟨some 1, some ⟨none, some 5, none⟩, some "s", none, some (some 0), some "a"⟩
      = RecStep.keep "only_dislikes" ⟨1, 0, 5, 0, "s", none, 0, mkUrl "a" 1⟩ := by
  exact (absent_field_defaults (oneYearAgo 0) 0 5 1 "s" "a" (by decide) (by decide)).2

/-- C10: for every script of fetch outcomes — including an immediate
transport failure and, for `process_user`, an exception inside its
`try` — both `get_user_comments` and `process_user` return a dict whose
keys are exactly `only_likes`, `only_dislikes`, `both`, in that order;
each key holds a (possibly empty) `List Comment` by the result type. -/
theorem result_keys_exact (now : Int) (fetches : List FetchResult) (raised : Bool) :
    (get_user_comments now fetches).map Prod.fst
      = ["only_likes", "only_dislikes", "both"] ∧
    (process_user now fetches raised).map Prod.fst
      = ["only_likes", "only_dislikes", "both"] := by
  have h1 := keys_scanPages (oneYearAgo now) 100 fetches emptyComments 0
  refine ⟨h1, ?_⟩
  unfold process_user
  split
  · rfl
  · exact h1
